import Mathlib

/-!
Verification of the analytical-engine repository (four Rust modules:
data-engine, query-optimizer, chart-renderer, parallel-compute) against its
natural-language specification.  Machine floats (f32/f64) are embedded as
exact rationals; machine sizes (usize) as Nat with the source's explicit
clamping; fallible operations as Except/Option.
-/

/- ---------------------------------------------------------------------
   String utilities shared by query-optimizer.
   The engine lower-cases the query and classifies it by substring tests
   (Rust `str::to_lowercase` / `str::contains`); queries are ASCII, so
   lower-casing is modelled on ASCII letters, and strings are handled as
   character lists.
--------------------------------------------------------------------- -/

/-- ASCII lower-casing of one character (model of `char::to_lowercase`
on the ASCII range, which is all the engine's keywords use). -/
def lowerChar (c : Char) : Char :=
  if 'A' ≤ c ∧ c ≤ 'Z' then Char.ofNat (c.toNat + 32) else c

/-- Lower-case a character list (model of `str::to_lowercase`). -/
def lowerL (s : List Char) : List Char := s.map lowerChar

/-- Does `s` start with `pat`?  (model of `str::starts_with`). -/
def startsWithL : List Char → List Char → Bool
  | [], _ => true
  | _ :: _, [] => false
  | a :: as, b :: bs => a = b && startsWithL as bs

/-- Does `s` contain `pat` as a contiguous substring?
(model of `str::contains`). -/
def containsL (pat : List Char) : List Char → Bool
  | [] => pat.isEmpty
  | c :: rest => startsWithL pat (c :: rest) || containsL pat rest

/-- First occurrence split: `some (before, after)` when `pat` occurs in `s`,
where `after` is everything past the first occurrence
(model of the first boundary produced by `str::split`). -/
def splitFirst (pat : List Char) : List Char → Option (List Char × List Char)
  | [] => if pat.isEmpty then some ([], []) else none
  | c :: rest =>
    if startsWithL pat (c :: rest) then some ([], (c :: rest).drop pat.length)
    else
      match splitFirst pat rest with
      | some (b, a) => some (c :: b, a)
      | none => none

/-- The second element of `s.split(pat)` (Rust `split(..).nth(1)`): the text
after the first occurrence of `pat`, truncated at the second occurrence. -/
def splitPart1 (pat s : List Char) : Option (List Char) :=
  (splitFirst pat s).map (fun pr =>
    match splitFirst pat pr.2 with
    | some pr2 => pr2.1
    | none => pr.2)

/-- First whitespace-delimited token (Rust `split_whitespace().next()`). -/
def firstToken (s : List Char) : Option (List Char) :=
  let s2 := s.dropWhile Char.isWhitespace
  if s2.isEmpty then none else some (s2.takeWhile (fun c => ¬ c.isWhitespace))

/-- Decimal digits to a natural number. -/
def digitsToNat (ds : List Char) : Nat :=
  ds.foldl (fun acc c => acc * 10 + (c.toNat - '0'.toNat)) 0

/-- Model of `str::parse::<f64>` on finite decimal literals, with exact
rational value:  optional sign, integer digits, optional fractional part
(exponent forms are not modelled; the engine's queries use plain decimals). -/
def parseQ (cs : List Char) : Option ℚ :=
  let signed : Bool × List Char :=
    match cs with
    | '-' :: r => (true, r)
    | '+' :: r => (false, r)
    | _ => (false, cs)
  let intPart := signed.2.takeWhile Char.isDigit
  let rest := signed.2.dropWhile Char.isDigit
  let withSign : ℚ → ℚ := fun v => if signed.1 then -v else v
  match rest with
  | [] =>
    if intPart.isEmpty then none
    else some (withSign (digitsToNat intPart : ℚ))
  | '.' :: fr =>
    let frac := fr.takeWhile Char.isDigit
    let rest2 := fr.dropWhile Char.isDigit
    if rest2.isEmpty then
      if intPart.isEmpty ∧ frac.isEmpty then none
      else some (withSign ((digitsToNat intPart : ℚ) +
        (digitsToNat frac : ℚ) / (10 : ℚ) ^ frac.length))
    else none
  | _ => none

/-- `QueryEngine::extract_number_from_query`: the first whitespace-delimited
token after the first occurrence of `after`, parsed as a number. -/
def extract_number (q after : List Char) : Option ℚ :=
  (splitPart1 after q).bind (fun part => (firstToken part).bind parseQ)

/- ---------------------------------------------------------------------
   JSON values and the row schema (data-engine / query-optimizer).
--------------------------------------------------------------------- -/

/-- A parsed JSON value (the decoded form of the ingestion text; textual
lexing is the host marshalling boundary). -/
inductive Json where
  | null
  | bool (b : Bool)
  | num (q : ℚ)
  | str (s : String)
  | arr (elems : List Json)
  | obj (fields : List (String × Json))
deriving Repr

/-- `DataRow { id: u32, category: String, sales: f64, region: String }`
(identical in data-engine and query-optimizer). -/
structure DataRow where
  id : Nat
  category : String
  sales : ℚ
  region : String
deriving Repr, DecidableEq

/-- serde struct deserialization for `DataRow`: walks the object's fields in
order; known fields must match their declared type and may not repeat;
unknown fields are skipped (the derive has no `deny_unknown_fields`); any
field still unset at the end is a missing-field error. -/
def fromJsonFields : List (String × Json) → Option Nat → Option String →
    Option ℚ → Option String → Except String DataRow
  | [], oi, oc, os, or2 =>
    match oi, oc, os, or2 with
    | some i, some c, some s, some r => .ok ⟨i, c, s, r⟩
    | none, _, _, _ => .error "missing field id"
    | _, none, _, _ => .error "missing field category"
    | _, _, none, _ => .error "missing field sales"
    | _, _, _, none => .error "missing field region"
  | (k, v) :: rest, oi, oc, os, or2 =>
    if k = "id" then
      match oi with
      | some _ => .error "duplicate field id"
      | none =>
        match v with
        | .num q =>
          if q.den = 1 ∧ 0 ≤ q.num ∧ q.num < 4294967296 then
            fromJsonFields rest (some q.num.toNat) oc os or2
          else .error "invalid value for id"
        | _ => .error "invalid type for id"
    else if k = "category" then
      match oc with
      | some _ => .error "duplicate field category"
      | none =>
        match v with
        | .str c => fromJsonFields rest oi (some c) os or2
        | _ => .error "invalid type for category"
    else if k = "sales" then
      match os with
      | some _ => .error "duplicate field sales"
      | none =>
        match v with
        | .num q => fromJsonFields rest oi oc (some q) or2
        | _ => .error "invalid type for sales"
    else if k = "region" then
      match or2 with
      | some _ => .error "duplicate field region"
      | none =>
        match v with
        | .str r => fromJsonFields rest oi oc os (some r)
        | _ => .error "invalid type for region"
    else fromJsonFields rest oi oc os or2

/-- Decode one `DataRow` from a JSON value. -/
def DataRow.fromJson : Json → Except String DataRow
  | .obj flds => fromJsonFields flds none none none none
  | _ => .error "invalid type, expected struct DataRow"

/-- Decode a sequence of rows element by element; the first failure aborts. -/
def rowsList : List Json → Except String (List DataRow)
  | [] => .ok []
  | j :: rest =>
    match DataRow.fromJson j with
    | .error e => .error e
    | .ok r =>
      match rowsList rest with
      | .error e => .error e
      | .ok rs => .ok (r :: rs)

/-- `serde_json::from_str::<Vec<DataRow>>` on the decoded ingestion value. -/
def rowsFromJson : Json → Except String (List DataRow)
  | .arr elems => rowsList elems
  | _ => .error "invalid type, expected a sequence"

/-- `DataEngine::load_data` / `QueryEngine::load_data`:
`self.data = serde_json::from_str(json_data)?` — the store is replaced only
when parsing succeeds; the `?` propagates the error before any assignment,
so on failure the previous store is returned untouched. -/
def load_data (store : List DataRow) (j : Json) :
    Except String Unit × List DataRow :=
  match rowsFromJson j with
  | .ok rows => (.ok (), rows)
  | .error e => (.error e, store)

/-- `DataEngine::row_count`. -/
def row_count (store : List DataRow) : Nat := store.length

/- ---------------------------------------------------------------------
   query-optimizer: execute_query / explain_query.
--------------------------------------------------------------------- -/

/-- `serde_json::to_value` of a `DataRow` (fields in declaration order). -/
def DataRow.toJson (r : DataRow) : Json :=
  .obj [("id", .num r.id), ("category", .str r.category),
        ("sales", .num r.sales), ("region", .str r.region)]

/-- Accumulate one row into a `(total, count)` grouping map.  Rust uses a
`HashMap`, whose iteration order is unspecified; the model fixes the
deterministic first-insertion order as a representative. -/
def aggUpsert (m : List (String × (ℚ × Nat))) (k : String) (v : ℚ) :
    List (String × (ℚ × Nat)) :=
  match m with
  | [] => [(k, (v, 1))]
  | (k2, p) :: rest =>
    if k2 = k then (k2, (p.1 + v, p.2 + 1)) :: rest
    else (k2, p) :: aggUpsert rest k v

/-- `QueryEngine::aggregate_by_category` (json object field order as in the
source's `json!` literal). -/
def aggregate_by_category (data : List DataRow) : List Json :=
  (data.foldl (fun m r => aggUpsert m r.category r.sales) []).map (fun kv =>
    .obj [("category", .str kv.1), ("total_sales", .num kv.2.1),
          ("count", .num kv.2.2), ("avg_sales", .num (kv.2.1 / (kv.2.2 : ℚ)))])

/-- `QueryEngine::aggregate_by_region`. -/
def aggregate_by_region (data : List DataRow) : List Json :=
  (data.foldl (fun m r => aggUpsert m r.region r.sales) []).map (fun kv =>
    .obj [("region", .str kv.1), ("total_sales", .num kv.2.1),
          ("count", .num kv.2.2), ("avg_sales", .num (kv.2.1 / (kv.2.2 : ℚ)))])

/-- `QueryResult { rows, rows_scanned }`.  `execution_time_ms` is a wall-clock
measurement (`js_sys::Date::now`), outside the functional model. -/
structure QueryResult where
  rows : List Json
  rows_scanned : Nat
deriving Repr

/-- `QueryEngine::execute_query`: priority-ordered substring classification
of the lower-cased query; the filter branch keeps rows with
`row.sales > threshold` (strict), threshold defaulting to `0.0` when
extraction fails; `rows_scanned` is always the full store size. -/
def execute_query (data : List DataRow) (query : String) : QueryResult :=
  let ql := lowerL query.toList
  let rows : List Json :=
    if containsL ("where sales >".toList) ql then
      let threshold := (extract_number ql ("where sales >".toList)).getD 0
      (data.filter (fun r => threshold < r.sales)).map DataRow.toJson
    else if containsL ("group by category".toList) ql then
      aggregate_by_category data
    else if containsL ("group by region".toList) ql then
      aggregate_by_region data
    else
      data.map DataRow.toJson
  ⟨rows, data.length⟩

/-- `QueryPlanStep { operation, cost, rows_estimated }`. -/
structure QueryPlanStep where
  operation : String
  cost : ℚ
  rows_estimated : Nat
deriving Repr, DecidableEq

/-- `QueryEngine::explain_query`: two fixed leading steps, then independent
substring tests appending Filter Scan / Hash Aggregate / Sort. -/
def explain_query (data : List DataRow) (query : String) : List QueryPlanStep :=
  let ql := lowerL query.toList
  [⟨"Parse SQL", 0.1, 0⟩, ⟨"Validate Schema", 0.1, 0⟩]
  ++ (if containsL ("where".toList) ql then
        [⟨"Filter Scan", (data.length : ℚ) * 0.001, data.length / 2⟩] else [])
  ++ (if containsL ("group by".toList) ql then
        [⟨"Hash Aggregate", (data.length : ℚ) * 0.002, 10⟩] else [])
  ++ (if containsL ("order by".toList) ql then
        [⟨"Sort", (data.length : ℚ) * 0.003, 10⟩] else [])

/- ---------------------------------------------------------------------
   chart-renderer: ChartProcessor with get_chunk and downsample.
--------------------------------------------------------------------- -/

/-- `DataPoint { x: f32, y: f32 }`. -/
structure DataPoint where
  x : ℚ
  y : ℚ
deriving Repr, DecidableEq

/-- `ChartProcessor { data, chunk_size }`. -/
structure ChartProcessor where
  data : List DataPoint
  chunk_size : Nat
deriving Repr

/-- `ChartProcessor::get_chunk`: the points of chunk `chunk_index`
(`chunk_size` wide, clamped to the data length), interleaved x,y;
empty when the chunk start is past the end. -/
def get_chunk (cp : ChartProcessor) (chunk_index : Nat) : List ℚ :=
  let s := chunk_index * cp.chunk_size
  let e := min (s + cp.chunk_size) cp.data.length
  if s ≥ cp.data.length then []
  else ((cp.data.drop s).take (e - s)).flatMap (fun p => [p.x, p.y])

/-- One intermediate point of `ChartProcessor::downsample`: the bucket is
`[floor(i*n/t), floor((i+1)*n/t))` and the emitted point is the mean of x
and of y over it.  The f32 products `i as f32 * bucket_size` truncated with
`as usize` are embedded exactly, so the floor is Nat division. -/
def midPoint (cp : ChartProcessor) (t i : Nat) : List ℚ :=
  let n := cp.data.length
  let s := i * n / t
  let e := (i + 1) * n / t
  let seg := (cp.data.drop s).take (e - s)
  [(seg.map DataPoint.x).sum / ((e - s : Nat) : ℚ),
   (seg.map DataPoint.y).sum / ((e - s : Nat) : ℚ)]

/-- `ChartProcessor::downsample`: for `target_points >= len` it returns
`get_chunk(0)` (the "no need to downsample" branch); otherwise first point,
`target_points - 2` bucket means, last point.  For `target_points = 0` with a
nonempty series the source panics (`bucket_size` is `+inf` in f32, the cast
saturates to `usize::MAX` and the slice index is out of range), modelled as
`none`. -/
def downsample (cp : ChartProcessor) (target_points : Nat) :
    Option (List ℚ) :=
  if target_points ≥ cp.data.length then some (get_chunk cp 0)
  else if target_points = 0 then none
  else some
    ([(cp.data.getD 0 ⟨0, 0⟩).x, (cp.data.getD 0 ⟨0, 0⟩).y]
     ++ (List.range' 1 (target_points - 2)).flatMap (midPoint cp target_points)
     ++ [(cp.data.getLastD ⟨0, 0⟩).x, (cp.data.getLastD ⟨0, 0⟩).y])

/- ---------------------------------------------------------------------
   parallel-compute: ParallelProcessor reductions.
--------------------------------------------------------------------- -/

/-- `ParallelProcessor::process_chunk`: sum of squares over
`data[start .. min(end, len))`, `0.0` on an empty effective range. -/
def process_chunk (data : List ℚ) (start end_ : Nat) : ℚ :=
  let e := min end_ data.length
  if start ≥ e then 0
  else (((data.drop start).take (e - start)).map (fun x => x * x)).sum

/-- `ParallelProcessor::process_sequential`: sum of squares of the buffer. -/
def process_sequential (data : List ℚ) : ℚ :=
  (data.map (fun x => x * x)).sum

/-- `ParallelProcessor::process_shared_buffer`: the same clamped range, but
accumulated by an index loop over the caller-supplied buffer
(`for i in start..end { sum += v * v }`). -/
def process_shared_buffer (buffer : List ℚ) (start end_ : Nat) : ℚ :=
  let e := min end_ buffer.length
  if start ≥ e then 0
  else (List.range' start (e - start)).foldl
    (fun acc i => acc + buffer.getD i 0 * buffer.getD i 0) 0

/-- Modelled from the spec: `reduce_range(buffer, start, end)` is the sum of
squares over `buffer[start .. min(end, length))`, and `0.0` when
`start >= effective_end` (spec §4.6); stated independently of the source to
compare the two. -/
def reduce_range_spec (buffer : List ℚ) (start end_ : Nat) : ℚ :=
  let eff := min end_ buffer.length
  if start ≥ eff then 0
  else (((buffer.drop start).take (eff - start)).map (fun x => x * x)).sum

/-- How many ranges of `P` cover index `k` (used to state that a family of
ranges covers each buffer index exactly once). -/
def coveredCount (P : List (Nat × Nat)) (k : Nat) : Nat :=
  (P.filter (fun p => decide (p.1 ≤ k ∧ k < p.2))).length

/- ---------------------------------------------------------------------
   General summation lemmas used by the reducer proofs.
--------------------------------------------------------------------- -/

/-- Summing a function mapped over `List.range` agrees with the Finset sum. -/
lemma listsum_bridge (n : Nat) (f : Nat → ℚ) :
    ((List.range n).map f).sum = ∑ k in Finset.range n, f k := by
  induction n with
  | zero => simp
  | succ n ih =>
    rw [List.range_succ, List.map_append, List.sum_append, Finset.sum_range_succ, ih]
    simp

/-- A slice sum written through `drop`/`take` equals the index-wise sum. -/
lemma slice_map_sum (f : ℚ → ℚ) :
    ∀ (m s : Nat) (l : List ℚ), s + m ≤ l.length →
    (((l.drop s).take m).map f).sum = ∑ k in Finset.range m, f (l.getD (s + k) 0) := by
  intro m
  induction m with
  | zero => intro s l _; simp
  | succ m ih =>
    intro s l h
    have hs : s < l.length := by omega
    rw [List.drop_eq_getElem_cons hs, List.take_succ_cons, List.map_cons, List.sum_cons,
      Finset.sum_range_succ' (fun k => f (l.getD (s + k) 0)) m, ih (s + 1) l (by omega)]
    have h0 : l.getD (s + 0) 0 = l[s] := by
      have := List.getD_eq_getElem l 0 hs
      simpa using this
    have hcong : ∀ k ∈ Finset.range m,
        f (l.getD (s + 1 + k) 0) = f (l.getD (s + (k + 1)) 0) := by
      intro k _
      have : s + 1 + k = s + (k + 1) := by omega
      rw [this]
    rw [Finset.sum_congr rfl hcong, h0]
    ring

/-- `process_chunk` as a full-length indicator sum. -/
lemma process_chunk_eq_sum (data : List ℚ) (s e : Nat) :
    process_chunk data s e =
    ∑ k in Finset.range data.length,
      if s ≤ k ∧ k < e then data.getD k 0 * data.getD k 0 else 0 := by
  unfold process_chunk
  set e2 := min e data.length with he2
  by_cases hse : s ≥ e2
  · rw [if_pos hse]
    symm
    apply Finset.sum_eq_zero
    intro k hk
    rw [Finset.mem_range] at hk
    rw [if_neg]
    rintro ⟨h1, h2⟩
    omega
  · rw [if_neg hse]
    have hcond : ∀ k ∈ Finset.range data.length,
        (if s ≤ k ∧ k < e then data.getD k 0 * data.getD k 0 else 0) =
        (if k ∈ Finset.Ico s e2 then data.getD k 0 * data.getD k 0 else 0) := by
      intro k hk
      rw [Finset.mem_range] at hk
      by_cases h : s ≤ k ∧ k < e
      · rw [if_pos h, if_pos (Finset.mem_Ico.mpr ⟨h.1, by omega⟩)]
      · rw [if_neg h, if_neg]
        rw [Finset.mem_Ico]
        rintro ⟨a, b⟩
        exact h ⟨a, by omega⟩
    rw [Finset.sum_congr rfl hcond, Finset.sum_ite_mem]
    have hsub : Finset.range data.length ∩ Finset.Ico s e2 = Finset.Ico s e2 := by
      rw [Finset.range_eq_Ico, Finset.Ico_inter_Ico]
      congr 1 <;> omega
    rw [hsub, Finset.sum_Ico_eq_sum_range]
    exact slice_map_sum (fun x => x * x) (e2 - s) s data (by omega)

/-- Exchange a list sum of Finset sums. -/
lemma sum_map_swap (P : List (Nat × Nat)) (n : Nat) (g : Nat × Nat → Nat → ℚ) :
    (P.map (fun p => ∑ k in Finset.range n, g p k)).sum =
    ∑ k in Finset.range n, (P.map (fun p => g p k)).sum := by
  induction P with
  | nil => simp
  | cons p P ih => simp [ih, Finset.sum_add_distrib]

/-- Summing a constant guarded by range membership counts the covering
ranges. -/
lemma sum_map_indicator (P : List (Nat × Nat)) (k : Nat) (c : ℚ) :
    (P.map (fun p => if p.1 ≤ k ∧ k < p.2 then c else 0)).sum =
    (coveredCount P k : ℚ) * c := by
  induction P with
  | nil => simp [coveredCount]
  | cons p P ih =>
    by_cases h : p.1 ≤ k ∧ k < p.2
    · rw [List.map_cons, List.sum_cons, if_pos h, ih]
      have hc : coveredCount (p :: P) k = coveredCount P k + 1 := by
        simp [coveredCount, List.filter_cons, h]
      rw [hc]
      push_cast
      ring
    · rw [List.map_cons, List.sum_cons, if_neg h, ih]
      have hc : coveredCount (p :: P) k = coveredCount P k := by
        simp [coveredCount, List.filter_cons, h]
      rw [hc]
      ring

/-- `process_sequential` as an index-wise sum. -/
lemma process_sequential_eq_sum (data : List ℚ) :
    process_sequential data =
    ∑ k in Finset.range data.length, data.getD k 0 * data.getD k 0 := by
  unfold process_sequential
  have := slice_map_sum (fun x => x * x) data.length 0 data (by omega)
  simpa using this

/-- C8 (confirmed): for every buffer and every finite family of index ranges
that covers each buffer index exactly once (in any order), the sum of
`process_chunk` over the family equals `process_sequential` — exactly, since
the embedding's arithmetic is exact. -/
theorem partition_sum_eq_sequential (data : List ℚ) (P : List (Nat × Nat))
    (hcov : ∀ k, k < data.length → coveredCount P k = 1) :
    (P.map (fun p => process_chunk data p.1 p.2)).sum = process_sequential data := by
  have h1 : (P.map (fun p => process_chunk data p.1 p.2)).sum =
      (P.map (fun p => ∑ k in Finset.range data.length,
        if p.1 ≤ k ∧ k < p.2 then data.getD k 0 * data.getD k 0 else 0)).sum := by
    congr 1
    exact List.map_congr_left (fun p _ => process_chunk_eq_sum data p.1 p.2)
  rw [h1, sum_map_swap, process_sequential_eq_sum]
  apply Finset.sum_congr rfl
  intro k hk
  rw [Finset.mem_range] at hk
  rw [sum_map_indicator, hcov k hk]
  push_cast
  ring

/-- C8 witness: the concrete buffer `[1,2,3]` split into the out-of-order
ranges `(2,5)` (clamped) and `(0,2)`. -/
theorem partition_sum_eq_sequential_witness :
    (∀ k, k < ([1, 2, 3] : List ℚ).length → coveredCount [(2, 5), (0, 2)] k = 1) ∧
    ([(2, 5), (0, 2)].map
      (fun p => process_chunk [1, 2, 3] p.1 p.2)).sum = process_sequential [1, 2, 3] :=
  ⟨by decide, partition_sum_eq_sequential [1, 2, 3] [(2, 5), (0, 2)] (by decide)⟩

/-- Folding an accumulating addition is the starting value plus the sum. -/
lemma foldl_add_eq (l : List Nat) (f : Nat → ℚ) : ∀ a : ℚ,
    l.foldl (fun acc i => acc + f i) a = a + (l.map f).sum := by
  induction l with
  | nil => intro a; simp
  | cons x xs ih =>
    intro a
    rw [List.foldl_cons, ih, List.map_cons, List.sum_cons]
    ring

/-- C9 (confirmed): `process_shared_buffer` over a caller-supplied buffer
agrees with `process_chunk` over an owned buffer with the same contents, and
both realise the spec's `reduce_range` contract (sum of squares over
`buffer[start .. min(end, length))`, `0` on an empty effective range). -/
theorem process_shared_buffer_eq_process_chunk (buffer : List ℚ) (start end_ : Nat) :
    process_shared_buffer buffer start end_ = process_chunk buffer start end_ ∧
    process_chunk buffer start end_ = reduce_range_spec buffer start end_ := by
  refine ⟨?_, rfl⟩
  unfold process_shared_buffer process_chunk
  set e2 := min end_ buffer.length with he2
  by_cases h : start ≥ e2
  · rw [if_pos h, if_pos h]
  · rw [if_neg h, if_neg h, foldl_add_eq, List.range'_eq_map_range, List.map_map,
      zero_add, listsum_bridge,
      slice_map_sum (fun x => x * x) (e2 - start) start buffer (by omega)]
    rfl

/- ---------------------------------------------------------------------
   Chart-renderer claims (C1, C3).
--------------------------------------------------------------------- -/

/-- Every intermediate bucket emits exactly its two mean coordinates. -/
lemma flatMap_midPoint_length (cp : ChartProcessor) (t : Nat) (L : List Nat) :
    (L.flatMap (midPoint cp t)).length = 2 * L.length := by
  induction L with
  | nil => simp
  | cons i L ih =>
    rw [List.flatMap_cons, List.length_append, ih]
    simp [midPoint]
    omega

/-- A processor whose data is the five points `(i, i)` with chunk size 2. -/
def cpDemo : ChartProcessor :=
  ⟨[⟨0, 0⟩, ⟨1, 1⟩, ⟨2, 2⟩, ⟨3, 3⟩, ⟨4, 4⟩], 2⟩

/-- C1 counterexample: with `target_points = 5 ≥ length 5` the claim demands
the full series back, but `downsample` returns `get_chunk(0)`, which holds
only the first `chunk_size = 2` points. -/
theorem downsample_large_target_truncates :
    downsample cpDemo 5 ≠ some (cpDemo.data.flatMap (fun p => [p.x, p.y])) := by
  decide

/-- C1 (amended): for every processor and every `target_points ≥ length`,
`downsample` returns the chunk-0 view: the first `min(chunk_size, length)`
points, in order, each x and y verbatim.  When `chunk_size ≥ length` this is
the full series; when `chunk_size < length` only the first chunk comes
back. -/
theorem downsample_large_target_chunk0_view (cp : ChartProcessor) (t : Nat)
    (h1 : cp.data.length ≤ t) :
    downsample cp t =
      some ((cp.data.take (min cp.chunk_size cp.data.length)).flatMap
        (fun p => [p.x, p.y])) := by
  unfold downsample
  rw [if_pos (by omega : t ≥ cp.data.length)]
  congr 1
  unfold get_chunk
  by_cases h0 : cp.data.length = 0
  · rw [if_pos (by omega)]
    have hnil : cp.data = [] := List.length_eq_zero.mp h0
    rw [hnil]
    simp
  · rw [if_neg (by omega)]
    simp [Nat.zero_mul]

/-- C1 witness: the amended statement at the concrete truncating processor
(`chunk_size = 2 < length = 5`), where the chunk-0 view is a proper
prefix of the series. -/
theorem downsample_large_target_chunk0_view_witness :
    cpDemo.data.length ≤ 5 ∧
    downsample cpDemo 5 =
      some ((cpDemo.data.take (min cpDemo.chunk_size cpDemo.data.length)).flatMap
        (fun p => [p.x, p.y])) :=
  ⟨by decide, downsample_large_target_chunk0_view cpDemo 5 (by decide)⟩

/-- C3 counterexample: with `target_points = 1 < length 5`, the output holds
the first and the last point — 2 points, not exactly `target_points = 1`. -/
theorem downsample_target_one_length :
    ¬ (((downsample cpDemo 1).getD []).length = 2 * 1) := by
  decide

/-- C3 (amended): for `2 ≤ target_points < length`, the output holds exactly
`target_points` points (2·t interleaved coordinates), beginning with
`series[0]` verbatim and ending with `series[last]` verbatim.  (For
`target_points = 1` the code still emits both boundary points, and for
`target_points = 0` it panics on a saturated slice index.) -/
theorem downsample_mid_target_shape (cp : ChartProcessor) (t : Nat)
    (h2 : 2 ≤ t) (hlt : t < cp.data.length) :
    ∃ l, downsample cp t = some l ∧ l.length = 2 * t ∧
      l.take 2 = [(cp.data.getD 0 ⟨0, 0⟩).x, (cp.data.getD 0 ⟨0, 0⟩).y] ∧
      l.drop (2 * t - 2) =
        [(cp.data.getLastD ⟨0, 0⟩).x, (cp.data.getLastD ⟨0, 0⟩).y] := by
  refine ⟨[(cp.data.getD 0 ⟨0, 0⟩).x, (cp.data.getD 0 ⟨0, 0⟩).y]
    ++ (List.range' 1 (t - 2)).flatMap (midPoint cp t)
    ++ [(cp.data.getLastD ⟨0, 0⟩).x, (cp.data.getLastD ⟨0, 0⟩).y],
    ?_, ?_, ?_, ?_⟩
  · unfold downsample
    rw [if_neg (by omega), if_neg (by omega)]
  · rw [List.length_append, List.length_append, flatMap_midPoint_length,
      List.length_range']
    simp
    omega
  · rfl
  · have hfront : ([(cp.data.getD 0 ⟨0, 0⟩).x, (cp.data.getD 0 ⟨0, 0⟩).y]
        ++ (List.range' 1 (t - 2)).flatMap (midPoint cp t)).length = 2 * t - 2 := by
      rw [List.length_append, flatMap_midPoint_length, List.length_range']
      simp
      omega
    rw [← hfront, List.drop_left]

/-- C3 witness: the amended statement at the concrete five-point processor
with `target_points = 3`. -/
theorem downsample_mid_target_shape_witness :
    ∃ l, downsample cpDemo 3 = some l ∧ l.length = 2 * 3 ∧
      l.take 2 = [(cpDemo.data.getD 0 ⟨0, 0⟩).x, (cpDemo.data.getD 0 ⟨0, 0⟩).y] ∧
      l.drop (2 * 3 - 2) =
        [(cpDemo.data.getLastD ⟨0, 0⟩).x, (cpDemo.data.getLastD ⟨0, 0⟩).y] :=
  downsample_mid_target_shape cpDemo 3 (by decide) (by decide)

/- ---------------------------------------------------------------------
   Query-engine claims (C2, C7, C10).
--------------------------------------------------------------------- -/

/-- The spec's three-row demo dataset
`[{A,10},{A,20},{B,5}]` (ids/regions concrete). -/
def demoRows : List DataRow :=
  [⟨1, "A", 10, "North"⟩, ⟨2, "A", 20, "South"⟩, ⟨3, "B", 5, "North"⟩]

/-- C2 counterexample: on the demo rows, `execute("SELECT * WHERE sales > 10")`
returns one row, not the claimed two — the row with `sales = 10` is excluded
by the strict comparison. -/
theorem execute_query_demo_row_count :
    ((execute_query demoRows "SELECT * WHERE sales > 10").rows).length ≠ 2 := by
  decide

/-- C2 (amended): on the demo rows the query returns exactly the rows with
`sales` strictly greater than 10 — here the single second row — in original
order, with `rows_scanned = 3`, the full store size. -/
theorem execute_query_demo_strict_result :
    execute_query demoRows "SELECT * WHERE sales > 10" =
      ⟨[DataRow.toJson ⟨2, "A", 20, "South"⟩], 3⟩ := by
  rfl

/-- C7 counterexample: the plan for `"... group by category order by x"` has
four steps, not the claimed five. -/
theorem explain_query_demo_step_count :
    (explain_query ([] : List DataRow) "... group by category order by x").length
      ≠ 5 := by
  decide

/-- C7 (amended): `explain("... group by category order by x")` emits four
steps in fixed order — Parse SQL, Validate Schema, Hash Aggregate, Sort,
with no Filter Scan since the text has no `"where"` — the two leading steps
having cost 0.1 and estimated rows 0 each. -/
theorem explain_query_group_order_steps (data : List DataRow) :
    explain_query data "... group by category order by x" =
      [⟨"Parse SQL", 0.1, 0⟩, ⟨"Validate Schema", 0.1, 0⟩,
       ⟨"Hash Aggregate", (data.length : ℚ) * 0.002, 10⟩,
       ⟨"Sort", (data.length : ℚ) * 0.003, 10⟩] := by
  have h1 : ¬ (containsL ("where".toList)
      (lowerL ("... group by category order by x").toList) = true) := by decide
  have h2 : containsL ("group by".toList)
      (lowerL ("... group by category order by x").toList) = true := by decide
  have h3 : containsL ("order by".toList)
      (lowerL ("... group by category order by x").toList) = true := by decide
  simp only [explain_query]
  rw [if_neg h1, if_pos h2, if_pos h3]
  rfl

/-- C10 (confirmed): whenever the lower-cased query contains
`"where sales >"` and the token after it parses as the number `T`, execution
returns exactly the rows with `sales` strictly greater than `T`, in original
load order (the order-preserving filter), and a row whose sales equals `T`
exactly is excluded. -/
theorem execute_query_filter_strict (data : List DataRow) (query : String) (T : ℚ)
    (hc : containsL ("where sales >".toList) (lowerL query.toList) = true)
    (he : extract_number (lowerL query.toList) ("where sales >".toList) = some T) :
    (execute_query data query).rows =
      (data.filter (fun r => T < r.sales)).map DataRow.toJson ∧
    ∀ r ∈ data, r.sales = T → r ∉ data.filter (fun r => T < r.sales) := by
  constructor
  · simp only [execute_query, hc, he, if_true, Option.getD_some]
  · intro r _ heq hmem
    rw [List.mem_filter] at hmem
    have := of_decide_eq_true hmem.2
    rw [heq] at this
    exact lt_irrefl T this

/-- C10 witness: the concrete strict filter at `T = 10` on the demo rows. -/
theorem execute_query_filter_strict_witness :
    (execute_query demoRows "SELECT * WHERE sales > 10").rows =
      (demoRows.filter (fun r => (10 : ℚ) < r.sales)).map DataRow.toJson ∧
    ∀ r ∈ demoRows, r.sales = 10 →
      r ∉ demoRows.filter (fun r => (10 : ℚ) < r.sales) :=
  execute_query_filter_strict demoRows "SELECT * WHERE sales > 10" 10
    (by decide) (by decide)

/- ---------------------------------------------------------------------
   Ingestion claims (C5, C6).
--------------------------------------------------------------------- -/

/-- The object has a well-typed `id` occurrence: a numeric field `"id"`
holding an integer in u32 range. -/
def hasGoodId (flds : List (String × Json)) : Prop :=
  ∃ q, ("id", Json.num q) ∈ flds ∧ (q.den = 1 ∧ 0 ≤ q.num ∧ q.num < 4294967296)

/-- The object has a string-typed `category` occurrence. -/
def hasGoodCategory (flds : List (String × Json)) : Prop :=
  ∃ s, ("category", Json.str s) ∈ flds

/-- The object has a numeric `sales` occurrence. -/
def hasGoodSales (flds : List (String × Json)) : Prop :=
  ∃ q, ("sales", Json.num q) ∈ flds

/-- The object has a string-typed `region` occurrence. -/
def hasGoodRegion (flds : List (String × Json)) : Prop :=
  ∃ s, ("region", Json.str s) ∈ flds

lemma hasGoodId_cons (kv : String × Json) (flds : List (String × Json))
    (h : hasGoodId flds) : hasGoodId (kv :: flds) := by
  obtain ⟨q, hm, hc⟩ := h
  exact ⟨q, List.mem_cons_of_mem _ hm, hc⟩

lemma hasGoodCategory_cons (kv : String × Json) (flds : List (String × Json))
    (h : hasGoodCategory flds) : hasGoodCategory (kv :: flds) := by
  obtain ⟨s, hm⟩ := h
  exact ⟨s, List.mem_cons_of_mem _ hm⟩

lemma hasGoodSales_cons (kv : String × Json) (flds : List (String × Json))
    (h : hasGoodSales flds) : hasGoodSales (kv :: flds) := by
  obtain ⟨q, hm⟩ := h
  exact ⟨q, List.mem_cons_of_mem _ hm⟩

lemma hasGoodRegion_cons (kv : String × Json) (flds : List (String × Json))
    (h : hasGoodRegion flds) : hasGoodRegion (kv :: flds) := by
  obtain ⟨s, hm⟩ := h
  exact ⟨s, List.mem_cons_of_mem _ hm⟩

/-- Success characterization of the row decoder: whenever the field walk
returns a row, every required slot that started unset was filled, so the
object holds a well-typed occurrence of that field.  Contrapositive: an
object missing a field, or mistyping its every occurrence, cannot decode. -/
lemma fromJsonFields_ok_good :
    ∀ (flds : List (String × Json)) (oi : Option Nat) (oc : Option String)
      (os : Option ℚ) (or2 : Option String) (r : DataRow),
    fromJsonFields flds oi oc os or2 = .ok r →
    (oi = none → hasGoodId flds) ∧ (oc = none → hasGoodCategory flds) ∧
    (os = none → hasGoodSales flds) ∧ (or2 = none → hasGoodRegion flds) := by
  intro flds
  induction flds with
  | nil =>
    intro oi oc os or2 r h
    cases oi with
    | none => simp [fromJsonFields] at h
    | some i =>
      cases oc with
      | none => simp [fromJsonFields] at h
      | some c =>
        cases os with
        | none => simp [fromJsonFields] at h
        | some s =>
          cases or2 with
          | none => simp [fromJsonFields] at h
          | some r2 =>
            exact ⟨fun hc => absurd hc (Option.some_ne_none _),
              fun hc => absurd hc (Option.some_ne_none _),
              fun hc => absurd hc (Option.some_ne_none _),
              fun hc => absurd hc (Option.some_ne_none _)⟩
  | cons kv rest ih =>
    intro oi oc os or2 r h
    obtain ⟨k, v⟩ := kv
    simp only [fromJsonFields] at h
    by_cases hid : k = "id"
    · rw [if_pos hid] at h
      cases oi with
      | some i0 => simp at h
      | none =>
        cases v with
        | num q =>
          dsimp only at h
          by_cases hq : q.den = 1 ∧ 0 ≤ q.num ∧ q.num < 4294967296
          · rw [if_pos hq] at h
            obtain ⟨g1, g2, g3, g4⟩ := ih _ _ _ _ _ h
            refine ⟨fun _ => ⟨q, ?_, hq⟩,
              fun hc => hasGoodCategory_cons _ _ (g2 hc),
              fun hc => hasGoodSales_cons _ _ (g3 hc),
              fun hc => hasGoodRegion_cons _ _ (g4 hc)⟩
            rw [hid]
            exact List.mem_cons_self _ _
          · rw [if_neg hq] at h
            simp at h
        | null => simp at h
        | bool b => simp at h
        | str s => simp at h
        | arr l => simp at h
        | obj l => simp at h
    · rw [if_neg hid] at h
      by_cases hcat : k = "category"
      · rw [if_pos hcat] at h
        cases oc with
        | some c0 => simp at h
        | none =>
          cases v with
          | str s =>
            obtain ⟨g1, g2, g3, g4⟩ := ih _ _ _ _ _ h
            refine ⟨fun hc => hasGoodId_cons _ _ (g1 hc),
              fun _ => ⟨s, ?_⟩,
              fun hc => hasGoodSales_cons _ _ (g3 hc),
              fun hc => hasGoodRegion_cons _ _ (g4 hc)⟩
            rw [hcat]
            exact List.mem_cons_self _ _
          | null => simp at h
          | bool b => simp at h
          | num q => simp at h
          | arr l => simp at h
          | obj l => simp at h
      · rw [if_neg hcat] at h
        by_cases hsal : k = "sales"
        · rw [if_pos hsal] at h
          cases os with
          | some s0 => simp at h
          | none =>
            cases v with
            | num q =>
              obtain ⟨g1, g2, g3, g4⟩ := ih _ _ _ _ _ h
              refine ⟨fun hc => hasGoodId_cons _ _ (g1 hc),
                fun hc => hasGoodCategory_cons _ _ (g2 hc),
                fun _ => ⟨q, ?_⟩,
                fun hc => hasGoodRegion_cons _ _ (g4 hc)⟩
              rw [hsal]
              exact List.mem_cons_self _ _
            | null => simp at h
            | bool b => simp at h
            | str s => simp at h
            | arr l => simp at h
            | obj l => simp at h
        · rw [if_neg hsal] at h
          by_cases hreg : k = "region"
          · rw [if_pos hreg] at h
            cases or2 with
            | some r0 => simp at h
            | none =>
              cases v with
              | str s =>
                obtain ⟨g1, g2, g3, g4⟩ := ih _ _ _ _ _ h
                refine ⟨fun hc => hasGoodId_cons _ _ (g1 hc),
                  fun hc => hasGoodCategory_cons _ _ (g2 hc),
                  fun hc => hasGoodSales_cons _ _ (g3 hc),
                  fun _ => ⟨s, ?_⟩⟩
                rw [hreg]
                exact List.mem_cons_self _ _
              | null => simp at h
              | bool b => simp at h
              | num q => simp at h
              | arr l => simp at h
              | obj l => simp at h
          · rw [if_neg hreg] at h
            obtain ⟨g1, g2, g3, g4⟩ := ih _ _ _ _ _ h
            exact ⟨fun hc => hasGoodId_cons _ _ (g1 hc),
              fun hc => hasGoodCategory_cons _ _ (g2 hc),
              fun hc => hasGoodSales_cons _ _ (g3 hc),
              fun hc => hasGoodRegion_cons _ _ (g4 hc)⟩

/-- If any element of the sequence fails to decode, the whole sequence
decode fails (serde aborts at the first bad element). -/
lemma rowsList_err :
    ∀ (js : List Json) (j : Json), j ∈ js →
    (∀ r, DataRow.fromJson j ≠ .ok r) → ∃ e, rowsList js = .error e := by
  intro js
  induction js with
  | nil => intro j hj; exact absurd hj (List.not_mem_nil j)
  | cons j0 rest ih =>
    intro j hj hbad
    rcases List.mem_cons.mp hj with rfl | hmem
    · cases hd : DataRow.fromJson j with
      | error e => exact ⟨e, by simp [rowsList, hd]⟩
      | ok r => exact absurd hd (hbad r)
    · cases hd : DataRow.fromJson j0 with
      | error e => exact ⟨e, by simp [rowsList, hd]⟩
      | ok r =>
        obtain ⟨e, he⟩ := ih j hmem hbad
        exact ⟨e, by simp [rowsList, hd, he]⟩

/-- Is the key one of the four schema fields the decoder reacts to? -/
def knownKey (kv : String × Json) : Bool :=
  kv.1 == "id" || kv.1 == "category" || kv.1 == "sales" || kv.1 == "region"

/-- The field walk ignores unknown keys entirely: its result depends only on
the schema-keyed entries, so extra fields never change the decode outcome. -/
lemma fromJsonFields_filter_known :
    ∀ (flds : List (String × Json)) (oi : Option Nat) (oc : Option String)
      (os : Option ℚ) (or2 : Option String),
    fromJsonFields flds oi oc os or2 =
    fromJsonFields (flds.filter knownKey) oi oc os or2 := by
  intro flds
  induction flds with
  | nil => intro oi oc os or2; rfl
  | cons kv rest ih =>
    intro oi oc os or2
    obtain ⟨k, v⟩ := kv
    by_cases hk : knownKey (k, v) = true
    · rw [List.filter_cons, if_pos hk]
      simp only [fromJsonFields]
      by_cases hid : k = "id"
      · simp only [if_pos hid]
        cases oi with
        | some i0 => rfl
        | none =>
          cases v with
          | num q =>
            dsimp only
            by_cases hq : q.den = 1 ∧ 0 ≤ q.num ∧ q.num < 4294967296
            · rw [if_pos hq, if_pos hq]
              exact ih _ _ _ _
            · rw [if_neg hq, if_neg hq]
          | null => rfl
          | bool b => rfl
          | str s => rfl
          | arr l => rfl
          | obj l => rfl
      · simp only [if_neg hid]
        by_cases hcat : k = "category"
        · simp only [if_pos hcat]
          cases oc with
          | some c0 => rfl
          | none =>
            cases v with
            | str s => exact ih _ _ _ _
            | null => rfl
            | bool b => rfl
            | num q => rfl
            | arr l => rfl
            | obj l => rfl
        · simp only [if_neg hcat]
          by_cases hsal : k = "sales"
          · simp only [if_pos hsal]
            cases os with
            | some s0 => rfl
            | none =>
              cases v with
              | num q => exact ih _ _ _ _
              | null => rfl
              | bool b => rfl
              | str s => rfl
              | arr l => rfl
              | obj l => rfl
          · simp only [if_neg hsal]
            by_cases hreg : k = "region"
            · simp only [if_pos hreg]
              cases or2 with
              | some r0 => rfl
              | none =>
                cases v with
                | str s => exact ih _ _ _ _
                | null => rfl
                | bool b => rfl
                | num q => rfl
                | arr l => rfl
                | obj l => rfl
            · exact absurd hk (by simp [knownKey, hid, hcat, hsal, hreg])
    · rw [List.filter_cons, if_neg hk]
      have hid : ¬ k = "id" := fun hh => hk (by simp [knownKey, hh])
      have hcat : ¬ k = "category" := fun hh => hk (by simp [knownKey, hh])
      have hsal : ¬ k = "sales" := fun hh => hk (by simp [knownKey, hh])
      have hreg : ¬ k = "region" := fun hh => hk (by simp [knownKey, hh])
      simp only [fromJsonFields]
      rw [if_neg hid, if_neg hcat, if_neg hsal, if_neg hreg]
      exact ih _ _ _ _

/-- C5 counterexample: an object with all four schema fields plus an extra
one loads successfully (serde without `deny_unknown_fields` skips unknown
fields), refuting the claim that an extra field makes the load fail. -/
theorem load_data_extra_field_succeeds :
    load_data [] (.arr [.obj [("id", .num 1), ("category", .str "a"),
        ("sales", .num 2), ("region", .str "r"), ("extra", .num 5)]]) =
      (.ok (), [⟨1, "a", 2, "r"⟩]) := by
  rfl

/-- C5 (amended): for every prior store and every ingestion sequence, if any
object of the sequence lacks a well-typed occurrence of any of the four
schema fields — the field is missing, or its every occurrence is mistyped —
the load fails with a parse error and the store is left unchanged; and the
decoder ignores unknown keys, so an extra field beyond the schema never
changes the decode outcome and does not by itself cause failure. -/
theorem load_data_bad_field_fails (store : List DataRow) (js : List Json)
    (flds : List (String × Json)) :
    (Json.obj flds ∈ js →
      (¬ hasGoodId flds ∨ ¬ hasGoodCategory flds ∨ ¬ hasGoodSales flds ∨
        ¬ hasGoodRegion flds) →
      (∃ e, (load_data store (.arr js)).1 = .error e) ∧
      (load_data store (.arr js)).2 = store) ∧
    DataRow.fromJson (.obj flds) =
      DataRow.fromJson (.obj (flds.filter knownKey)) := by
  constructor
  · intro hmem hbad
    have hne : ∀ r, DataRow.fromJson (.obj flds) ≠ .ok r := by
      intro r hok
      have hgg := fromJsonFields_ok_good flds none none none none r hok
      rcases hbad with hb | hb | hb | hb
      · exact hb (hgg.1 rfl)
      · exact hb (hgg.2.1 rfl)
      · exact hb (hgg.2.2.1 rfl)
      · exact hb (hgg.2.2.2 rfl)
    obtain ⟨e, he⟩ := rowsList_err js (.obj flds) hmem hne
    have harr : rowsFromJson (.arr js) = .error e := he
    refine ⟨⟨e, ?_⟩, ?_⟩ <;> simp [load_data, harr]
  · exact fromJsonFields_filter_known flds none none none none

/-- C5 witness: the amended statement at a one-object sequence whose `sales`
field is a string. -/
theorem load_data_bad_field_fails_witness :
    ((∃ e, (load_data demoRows
        (.arr [.obj [("sales", Json.str "oops")]])).1 = .error e) ∧
      (load_data demoRows (.arr [.obj [("sales", Json.str "oops")]])).2 =
        demoRows) ∧
    DataRow.fromJson (.obj [("sales", Json.str "oops")]) =
      DataRow.fromJson (.obj ([("sales", Json.str "oops")].filter knownKey)) :=
  ⟨(load_data_bad_field_fails demoRows [.obj [("sales", Json.str "oops")]]
      [("sales", Json.str "oops")]).1
    (List.mem_singleton.mpr rfl)
    (Or.inr (Or.inr (Or.inl (by rintro ⟨q, hq⟩; simp at hq)))),
   (load_data_bad_field_fails demoRows [.obj [("sales", Json.str "oops")]]
      [("sales", Json.str "oops")]).2⟩

/-- C6 (confirmed): whenever a load fails, the store after the call is
exactly the store before it — in particular `row_count` is unchanged — since
the source assigns the parsed rows only after the `?` has not propagated. -/
theorem load_data_failure_preserves_store (store : List DataRow) (j : Json)
    (e : String) (h : (load_data store j).1 = .error e) :
    (load_data store j).2 = store ∧
    row_count (load_data store j).2 = row_count store := by
  unfold load_data at *
  cases hr : rowsFromJson j with
  | ok rows => rw [hr] at h; exact absurd h (by simp)
  | error e2 => exact ⟨rfl, rfl⟩

/-- C6 witness: a failing load (non-array input) on the demo store. -/
theorem load_data_failure_preserves_store_witness :
    (load_data demoRows (Json.num 3)).2 = demoRows ∧
    row_count (load_data demoRows (Json.num 3)).2 = row_count demoRows :=
  load_data_failure_preserves_store demoRows (Json.num 3)
    "invalid type, expected a sequence" (by rfl)
